import Mathlib

/-!
Verification of the IAM assistant service core: the fallback-retry controller
(IAMAssistant.chat_on_thread), the lazy singleton agent registry
(the getters of agent_service.py), and the thread-creation endpoints.

The external Azure agent service is modelled as an explicit state
(thread histories) together with an environment that fixes the text the
hosted agent produces on each run and which service calls raise.
-/

namespace Genie

/-- Role tag of a chat message stored on a service-side thread. -/
inductive Role where
  | user
  | assistant
deriving DecidableEq

/-- A chat message: a role plus its text content. -/
structure Message where
  role : Role
  content : String
deriving DecidableEq

/-- Substring search on character lists, the semantics of the Python
membership test `pat in s` used by the refusal check. -/
def listContains (pat : List Char) : List Char → Bool
  | [] => pat.isEmpty
  | c :: rest => pat.isPrefixOf (c :: rest) || listContains pat rest

/-- Python substring test `pat in s` on strings. -/
def strContains (s pat : String) : Bool :=
  listContains pat.data s.data

/-- The apostrophe character as a one-character string (used to spell the
refusal marker exactly as in the source). -/
def apos : String := String.singleton (Char.ofNat 39)

/-- First refusal marker of chat_on_thread (IAMAssistant.py line 120). -/
def marker1 : String := "I don" ++ apos ++ "t know the answer"

/-- Second refusal marker of chat_on_thread (IAMAssistant.py line 120). -/
def marker2 : String := "The document does not"

/-- The refusal test of chat_on_thread: substring membership of either
marker in the primary response (IAMAssistant.py line 120). -/
def isRefusal (s : String) : Bool :=
  strContains s marker1 || strContains s marker2

/-- Placeholder returned when the primary run yields no assistant text
(IAMAssistant.py line 116). -/
def noResponseMsg : String := "🤖 No response received."

/-- Placeholder returned when the fallback run yields no assistant text
(IAMAssistant.py line 145). -/
def noFallbackMsg : String := "🤖 No fallback response received."

/-- Marker prefixed to the recovered answer stored on the original thread
(IAMAssistant.py line 152). -/
def recoveredTag : String := "[Recovered Answer]\n"

/-- Detail text of the transient connection failure recognized by the
ServiceResponseError handler (IAMAssistant.py line 162). -/
def connLostDetail : String := "Remote end closed connection without response"

/-- Fixed user-visible reply for a lost service connection
(IAMAssistant.py line 163). -/
def connLostReply : String := "❌ Connection to Azure AI service lost. Please try again."

/-- Reply for other ServiceResponseError cases (IAMAssistant.py line 164). -/
def serviceErrReply (m : String) : String := "❌ Service error: " ++ m

/-- Reply for any other exception (IAMAssistant.py line 169). -/
def unexpectedErrReply (m : String) : String := "❌ Unexpected error occurred: " ++ m

/-- The phrase the agent instructions direct it to use when the documentation
lacks the information (IAMAssistant.py line 68). -/
def notAvailableMsg : String := "The information is not available in the documentation."

/-- Exceptions the agent-service calls inside chat_on_thread may raise:
azure.core.exceptions.ServiceResponseError, or anything else. -/
inductive Exc where
  | serviceResponseError (msg : String)
  | otherError (msg : String)
deriving DecidableEq

/-- Environment for one chat_on_thread invocation. `respond h` is the text
of the assistant message that create_and_process_run appends on a thread
whose history is `h` (none when the run produces no text message);
`fail k` is the exception raised by the k-th service call of the
invocation (none when that call succeeds). -/
structure Env where
  respond : List Message → Option String
  fail : Nat → Option Exc

/-- Service-side state: the message history of every thread, the counter
used to name fresh ephemeral threads, and how many ephemeral threads have
been created. -/
structure AgentsState where
  threads : String → List Message
  nextTemp : Nat
  tempCreated : Nat

/-- Message history of a thread. -/
def getHist (st : AgentsState) (tid : String) : List Message :=
  st.threads tid

/-- Replace the message history of a thread. -/
def setHist (st : AgentsState) (tid : String) (h : List Message) : AgentsState :=
  { st with threads := fun u => if u = tid then h else st.threads u }

/-- Service call agents.create_message: append one message to a thread. -/
def appendMsg (st : AgentsState) (tid : String) (r : Role) (c : String) : AgentsState :=
  setHist st tid (getHist st tid ++ [⟨r, c⟩])

/-- History extension performed by one agent run: the assistant message the
environment produces, if any, is appended. -/
def runAppend (env : Env) (h : List Message) : List Message :=
  match env.respond h with
  | some r => h ++ [⟨.assistant, r⟩]
  | none => h

/-- Service call agents.create_and_process_run on a thread. -/
def runAgent (env : Env) (st : AgentsState) (tid : String) : AgentsState :=
  setHist st tid (runAppend env (getHist st tid))

/-- Service call list_messages + get_last_text_message_by_role("assistant"):
the content of the latest assistant message of a history. -/
def lastAssistant (h : List Message) : Option String :=
  (h.reverse.find? fun m => m.role == .assistant).map Message.content

/-- Identifier the service hands out for the next ephemeral thread. -/
def tempId (st : AgentsState) : String := "temp-" ++ toString st.nextTemp

/-- Service call agents.create_thread inside the fallback branch: register a
brand-new empty thread and bump the counters. -/
def newTempThread (st : AgentsState) : AgentsState :=
  { threads := fun u => if u = tempId st then [] else st.threads u,
    nextTemp := st.nextTemp + 1,
    tempCreated := st.tempCreated + 1 }

/-- Body of IAMAssistant.chat_on_thread (lines 97-158), before the
try/except wrapper: each service call is numbered in program order and
consults `env.fail`; an exception propagates with the state reached so far. -/
def chatBody (env : Env) (st : AgentsState) (tid q : String) :
    Except Exc String × AgentsState :=
  match env.fail 0 with
  | some e => (.error e, st)
  | none =>
    let st1 := appendMsg st tid .user q
    match env.fail 1 with
    | some e => (.error e, st1)
    | none =>
      let st2 := runAgent env st1 tid
      match env.fail 2 with
      | some e => (.error e, st2)
      | none =>
        let responseText := (lastAssistant (getHist st2 tid)).getD noResponseMsg
        if isRefusal responseText then
          match env.fail 3 with
          | some e => (.error e, st2)
          | none =>
            let temp := tempId st2
            let st3 := newTempThread st2
            match env.fail 4 with
            | some e => (.error e, st3)
            | none =>
              let st4 := appendMsg st3 temp .user q
              match env.fail 5 with
              | some e => (.error e, st4)
              | none =>
                let st5 := runAgent env st4 temp
                match env.fail 6 with
                | some e => (.error e, st5)
                | none =>
                  let fallbackResponse :=
                    (lastAssistant (getHist st5 temp)).getD noFallbackMsg
                  match env.fail 7 with
                  | some e => (.error e, st5)
                  | none =>
                    let st6 := appendMsg st5 tid .assistant
                      (recoveredTag ++ fallbackResponse)
                    (.ok fallbackResponse, st6)
        else
          (.ok responseText, st2)

/-- The except handlers of chat_on_thread (lines 160-169). -/
def handleExc : Exc → String
  | .serviceResponseError m =>
      if strContains m connLostDetail then connLostReply else serviceErrReply m
  | .otherError m => unexpectedErrReply m

/-- IAMAssistant.chat_on_thread (lines 82-169): the body wrapped in the
try/except handlers; always returns a string together with the final
service state. -/
def chat_on_thread (env : Env) (st : AgentsState) (tid q : String) :
    String × AgentsState :=
  match chatBody env st tid q with
  | (.ok r, st1) => (r, st1)
  | (.error e, st1) => (handleExc e, st1)

/-- No service call of this invocation raises. -/
def noFailures (env : Env) : Prop := ∀ k, env.fail k = none

/-- The primary response chat_on_thread extracts after the first run:
the latest assistant message of the original thread once the user query and
the run result have been appended (noResponseMsg when there is none). -/
def primaryResponse (env : Env) (st : AgentsState) (tid q : String) : String :=
  (lastAssistant (runAppend env (getHist st tid ++ [⟨.user, q⟩]))).getD noResponseMsg

/-- The answer obtained on the ephemeral thread: what the agent responds to
the bare query with no prior history (noFallbackMsg when the run yields no
assistant text). -/
def fallbackAnswer (env : Env) (q : String) : String :=
  (env.respond [⟨.user, q⟩]).getD noFallbackMsg

/-- State after the primary part of the call: user query appended, agent run. -/
def stAfterRun (env : Env) (st : AgentsState) (tid q : String) : AgentsState :=
  runAgent env (appendMsg st tid .user q) tid

/-- State after the whole fallback branch: ephemeral thread created and run,
recovered answer appended to the original thread. -/
def stAfterFallback (env : Env) (st : AgentsState) (tid q : String) : AgentsState :=
  let st2 := stAfterRun env st tid q
  let st5 := runAgent env (appendMsg (newTempThread st2) (tempId st2) .user q) (tempId st2)
  appendMsg st5 tid .assistant (recoveredTag ++ fallbackAnswer env q)

/-- The /ad/chat endpoint handler ad_provisioning_chat (agent_service.py
lines 452-492), restricted to its authoritative history side effect:
append the user message, run the AD agent on the history, append the
assistant response, return the new history and the response. -/
def ad_provisioning_chat (proc : List Message → String → String)
    (hist : List Message) (msg : String) : List Message × String :=
  let hist1 := hist ++ [⟨.user, msg⟩]
  let resp := proc hist1 msg
  (hist1 ++ [⟨.assistant, resp⟩], resp)

/-- The primed refusal response from the spec scenario. -/
def primedRefusal : String :=
  "I don" ++ apos ++
    "t know the answer to that. My responses are based solely on the IAM documentation."

/-- Environment whose agent always answers with the primed refusal and
whose service calls never fail. -/
def envRefuse : Env :=
  { respond := fun _ => some primedRefusal, fail := fun _ => none }

/-- Environment whose agent always answers with an ordinary sentence. -/
def envPlain : Env :=
  { respond := fun _ => some "Entra ID manages identities.", fail := fun _ => none }

/-- Environment whose agent always answers with the not-available phrasing
the instructions mandate when the documentation lacks the information. -/
def envNotAvailable : Env :=
  { respond := fun _ => some notAvailableMsg, fail := fun _ => none }

/-- Environment whose first service call raises ServiceResponseError with
the connection-reset detail. -/
def envConnLost : Env :=
  { respond := fun _ => none,
    fail := fun k => if k = 0 then some (.serviceResponseError connLostDetail) else none }

/-- Environment whose first service call raises a generic exception. -/
def envBoom : Env :=
  { respond := fun _ => none,
    fail := fun k => if k = 0 then some (.otherError "boom") else none }

/-- Initial service state: every thread empty, no ephemeral thread yet. -/
def st0 : AgentsState :=
  { threads := fun _ => [], nextTemp := 0, tempCreated := 0 }

/-- Sequential semantics of get_assistant (agent_service.py lines 97-103):
the slot is assigned only from a completed constructor call, so a raising
constructor leaves the slot untouched. Instances are identified by a
number; `ctor` is the outcome of running IAMAssistant() now. -/
def get_assistant (slot : Option Nat) (ctor : Except String Nat) :
    Except String Nat × Option Nat :=
  match slot with
  | some a => (.ok a, some a)
  | none =>
    match ctor with
    | .ok a => (.ok a, some a)
    | .error e => (.error e, none)

/-- An ADAgentMCP instance: its construction number and whether its
initialize() call (the MCP connection setup) has completed. -/
structure ADAgent where
  ctorId : Nat
  mcpReady : Bool
deriving DecidableEq

/-- Sequential semantics of get_ad_agent (agent_service.py lines 124-131):
the global is assigned from ADAgentMCP() first, and only then is
initialize() awaited, so an initialize failure propagates with the
partially initialized instance already stored in the slot. -/
def get_ad_agent (slot : Option ADAgent) (ctor : Except String ADAgent)
    (initOutcome : Except String Unit) : Except String ADAgent × Option ADAgent :=
  match slot with
  | some a => (.ok a, some a)
  | none =>
    match ctor with
    | .error e => (.error e, none)
    | .ok a =>
      match initOutcome with
      | .ok _ => (.ok { a with mcpReady := true }, some { a with mcpReady := true })
      | .error e => (.error e, some a)

/-- An MCP-backed agent as seen by the discovery re-check: its discovered
tools, how often the MCP connection was opened, the LLM services registered
on its kernel, and how often initialize() ran. -/
structure MCPAgent where
  available_tools : List String
  connectCount : Nat
  services : List String
  discoverCount : Nat
deriving DecidableEq

/-- get_entra_agent (agent_service.py lines 134-162): construct on first
access, then re-check the available_tools flag on every access and run the
discovery block (connect, register the LLM service, initialize) only when
the flag is empty. The discovery block is the parameter `discover`. -/
def get_entra_agent (discover : MCPAgent → MCPAgent) (mk : MCPAgent)
    (slot : Option MCPAgent) : Option MCPAgent × MCPAgent :=
  let a := match slot with
    | some a => a
    | none => mk
  if a.available_tools.isEmpty then
    let a1 := discover a
    (some a1, a1)
  else
    (some a, a)

/-- get_saviynt_agent (agent_service.py lines 179-191): same shape, with
initialize() as the discovery block. -/
def get_saviynt_agent (discover : MCPAgent → MCPAgent) (mk : MCPAgent)
    (slot : Option MCPAgent) : Option MCPAgent × MCPAgent :=
  let a := match slot with
    | some a => a
    | none => mk
  if a.available_tools.isEmpty then
    let a1 := discover a
    (some a1, a1)
  else
    (some a, a)

/-- Two lowercase hex digits of one byte, the encoding of bytes.hex() in
Python for a single byte. -/
def byteToHex (b : Nat) : List Char :=
  [Nat.digitChar (b / 16), Nat.digitChar (b % 16)]

/-- bytes.hex() of a byte sequence. -/
def bytesHex (bs : List Nat) : String :=
  ⟨bs.flatMap byteToHex⟩

/-- create_orchestrator_thread (agent_service.py lines 374-381): the thread
identifier derived from the four bytes os.urandom returned. -/
def create_orchestrator_thread (r : List Nat) : String :=
  "orch-" ++ bytesHex r

/-- create_entra_agent_thread (agent_service.py lines 405-412). -/
def create_entra_agent_thread (r : List Nat) : String :=
  "entra-agent-" ++ bytesHex r

/-- The distinctness property claimed of thread identifiers: over any
stream of urandom draws, distinct calls return distinct identifiers. -/
def threadIdsDistinctClaim : Prop :=
  ∀ (draws : Nat → List Nat) (i j : Nat), i ≠ j →
    create_orchestrator_thread (draws i) ≠ create_orchestrator_thread (draws j)

/-- Program counter of one worker executing the double-checked-locking
getter (get_assistant, and the construction part of get_okta_agent):
outer unlocked read, acquire, locked re-check, construct, store, release,
read the global and return. -/
inductive PC where
  | p0
  | p1
  | p2
  | p3
  | p3b (v : Nat)
  | p4
  | p5
  | done (v : Nat)
deriving DecidableEq

/-- Global state of the registry under concurrent access: the singleton
slot, the lock holder, how many constructor runs happened, and each
worker's program counter. -/
structure RegState where
  g : Option Nat
  lock : Option Nat
  count : Nat
  pcs : List PC
deriving DecidableEq

/-- Initial state for n workers racing the first access. -/
def initReg (n : Nat) : RegState :=
  ⟨none, none, 0, List.replicate n .p0⟩

/-- Interleaving semantics of the getter: one worker takes one atomic step.
Constructed instances are numbered by the construction counter. -/
inductive RegStep : RegState → RegState → Prop where
  | check_some (s : RegState) (i v : Nat)
      (hp : s.pcs[i]? = some .p0) (hg : s.g = some v) :
      RegStep s { s with pcs := s.pcs.set i .p5 }
  | check_none (s : RegState) (i : Nat)
      (hp : s.pcs[i]? = some .p0) (hg : s.g = none) :
      RegStep s { s with pcs := s.pcs.set i .p1 }
  | acquire (s : RegState) (i : Nat)
      (hp : s.pcs[i]? = some .p1) (hl : s.lock = none) :
      RegStep s { s with lock := some i, pcs := s.pcs.set i .p2 }
  | recheck_some (s : RegState) (i v : Nat)
      (hp : s.pcs[i]? = some .p2) (hg : s.g = some v) :
      RegStep s { s with pcs := s.pcs.set i .p4 }
  | recheck_none (s : RegState) (i : Nat)
      (hp : s.pcs[i]? = some .p2) (hg : s.g = none) :
      RegStep s { s with pcs := s.pcs.set i .p3 }
  | construct (s : RegState) (i : Nat)
      (hp : s.pcs[i]? = some .p3) :
      RegStep s { s with count := s.count + 1, pcs := s.pcs.set i (.p3b (s.count + 1)) }
  | store (s : RegState) (i v : Nat)
      (hp : s.pcs[i]? = some (.p3b v)) :
      RegStep s { s with g := some v, pcs := s.pcs.set i .p4 }
  | release (s : RegState) (i : Nat)
      (hp : s.pcs[i]? = some .p4) :
      RegStep s { s with lock := none, pcs := s.pcs.set i .p5 }
  | ret (s : RegState) (i v : Nat)
      (hp : s.pcs[i]? = some .p5) (hg : s.g = some v) :
      RegStep s { s with pcs := s.pcs.set i (.done v) }

/-- States reachable from the n-worker initial state. -/
inductive RegReach (n : Nat) : RegState → Prop where
  | init : RegReach n (initReg n)
  | step (s s' : RegState) : RegReach n s → RegStep s s' → RegReach n s'

/-- Program counters inside the critical section (lock held). -/
def inCS : PC → Bool
  | .p2 | .p3 | .p3b _ | .p4 => true
  | _ => false

/-- Whether a worker has returned. -/
def isDone : PC → Bool
  | .done _ => true
  | _ => false

/-- All workers have returned. -/
def allDone (s : RegState) : Prop :=
  ∀ pc ∈ s.pcs, isDone pc = true

/-- Inductive invariant of the double-checked-locking registry. -/
def RegInv (s : RegState) : Prop :=
  (∀ (i : Nat) (pc : PC), s.pcs[i]? = some pc → inCS pc = true → s.lock = some i) ∧
  (∀ (i v : Nat), s.pcs[i]? = some (PC.p3b v) → v = 1 ∧ s.count = 1 ∧ s.g = none) ∧
  (∀ v : Nat, s.g = some v → v = 1 ∧ s.count = 1) ∧
  (∀ i : Nat, s.pcs[i]? = some PC.p3 → s.g = none ∧ s.count = 0) ∧
  s.count ≤ 1 ∧
  (∀ (i v : Nat), s.pcs[i]? = some (PC.done v) → v = 1) ∧
  ((∃ (i v : Nat), s.pcs[i]? = some (PC.done v)) → s.count = 1) ∧
  (s.count = 1 → s.g = some 1 ∨ ∃ i : Nat, s.pcs[i]? = some (PC.p3b 1))

/-- Final state of the one-worker witness execution. -/
def regFinal : RegState :=
  ⟨some 1, none, 1, [PC.done 1]⟩

theorem getHist_setHist_same (st : AgentsState) (t : String) (h : List Message) :
    getHist (setHist st t h) t = h := by
  simp [getHist, setHist]

theorem getHist_setHist_ne (st : AgentsState) (t u : String) (h : List Message)
    (hne : u ≠ t) : getHist (setHist st t h) u = getHist st u := by
  simp [getHist, setHist, hne]

theorem getHist_appendMsg_same (st : AgentsState) (t : String) (r : Role) (c : String) :
    getHist (appendMsg st t r c) t = getHist st t ++ [⟨r, c⟩] :=
  getHist_setHist_same ..

theorem getHist_appendMsg_ne (st : AgentsState) (t u : String) (r : Role) (c : String)
    (hne : u ≠ t) : getHist (appendMsg st t r c) u = getHist st u :=
  getHist_setHist_ne _ _ _ _ hne

theorem getHist_runAgent_same (env : Env) (st : AgentsState) (t : String) :
    getHist (runAgent env st t) t = runAppend env (getHist st t) :=
  getHist_setHist_same ..

theorem getHist_runAgent_ne (env : Env) (st : AgentsState) (t u : String)
    (hne : u ≠ t) : getHist (runAgent env st t) u = getHist st u :=
  getHist_setHist_ne _ _ _ _ hne

theorem getHist_newTempThread_self (st : AgentsState) :
    getHist (newTempThread st) (tempId st) = [] := by
  simp [getHist, newTempThread]

theorem getHist_newTempThread_ne (st : AgentsState) (u : String)
    (hne : u ≠ tempId st) : getHist (newTempThread st) u = getHist st u := by
  simp [getHist, newTempThread, hne]

theorem setHist_nextTemp (st : AgentsState) (t : String) (h : List Message) :
    (setHist st t h).nextTemp = st.nextTemp := rfl

theorem setHist_tempCreated (st : AgentsState) (t : String) (h : List Message) :
    (setHist st t h).tempCreated = st.tempCreated := rfl

theorem lastAssistant_append_assistant (h : List Message) (r : String) :
    lastAssistant (h ++ [⟨.assistant, r⟩]) = some r := by
  simp [lastAssistant]

theorem lastAssistant_append_user (h : List Message) (c : String) :
    lastAssistant (h ++ [⟨.user, c⟩]) = lastAssistant h := by
  simp [lastAssistant]

theorem primaryResponse_eq (env : Env) (st : AgentsState) (tid q : String) :
    (lastAssistant (runAppend env (getHist st tid ++ [⟨.user, q⟩]))).getD noResponseMsg
      = primaryResponse env st tid q := rfl

theorem tempId_stAfterRun (env : Env) (st : AgentsState) (tid q : String) :
    tempId (stAfterRun env st tid q) = tempId st := rfl

theorem fallback_eval (env : Env) (q : String) :
    (lastAssistant (runAppend env [⟨.user, q⟩])).getD noFallbackMsg
      = fallbackAnswer env q := by
  unfold runAppend fallbackAnswer
  cases h : env.respond [⟨Role.user, q⟩] <;>
    simp [lastAssistant]

theorem chatBody_noRefusal (env : Env) (st : AgentsState) (tid q : String)
    (hf : noFailures env)
    (hnr : isRefusal (primaryResponse env st tid q) = false) :
    chatBody env st tid q =
      (.ok (primaryResponse env st tid q), stAfterRun env st tid q) := by
  have hf' : ∀ k, env.fail k = none := hf
  have h2 : getHist (stAfterRun env st tid q) tid
      = runAppend env (getHist st tid ++ [⟨.user, q⟩]) := by
    rw [stAfterRun, getHist_runAgent_same, getHist_appendMsg_same]
  simp only [chatBody, hf']
  rw [show runAgent env (appendMsg st tid .user q) tid = stAfterRun env st tid q from rfl,
    h2, primaryResponse_eq, hnr]
  simp

theorem chatBody_refusal (env : Env) (st : AgentsState) (tid q : String)
    (hf : noFailures env)
    (hr : isRefusal (primaryResponse env st tid q) = true) :
    chatBody env st tid q =
      (.ok (fallbackAnswer env q), stAfterFallback env st tid q) := by
  have hf' : ∀ k, env.fail k = none := hf
  have h2 : getHist (stAfterRun env st tid q) tid
      = runAppend env (getHist st tid ++ [⟨.user, q⟩]) := by
    rw [stAfterRun, getHist_runAgent_same, getHist_appendMsg_same]
  have h4 : getHist (appendMsg (newTempThread (stAfterRun env st tid q))
        (tempId (stAfterRun env st tid q)) .user q) (tempId (stAfterRun env st tid q))
      = [⟨.user, q⟩] := by
    rw [getHist_appendMsg_same, getHist_newTempThread_self, List.nil_append]
  simp only [chatBody, hf']
  rw [show runAgent env (appendMsg st tid .user q) tid = stAfterRun env st tid q from rfl,
    h2, primaryResponse_eq, hr]
  simp only [if_true]
  rw [getHist_runAgent_same, h4, fallback_eval]
  rfl

theorem chat_noRefusal_eval (env : Env) (st : AgentsState) (tid q : String)
    (hf : noFailures env)
    (hnr : isRefusal (primaryResponse env st tid q) = false) :
    chat_on_thread env st tid q
      = (primaryResponse env st tid q, stAfterRun env st tid q) := by
  rw [chat_on_thread, chatBody_noRefusal env st tid q hf hnr]

theorem chat_refusal_eval (env : Env) (st : AgentsState) (tid q : String)
    (hf : noFailures env)
    (hr : isRefusal (primaryResponse env st tid q) = true) :
    chat_on_thread env st tid q
      = (fallbackAnswer env q, stAfterFallback env st tid q) := by
  rw [chat_on_thread, chatBody_refusal env st tid q hf hr]

theorem stAfterRun_tempCreated (env : Env) (st : AgentsState) (tid q : String) :
    (stAfterRun env st tid q).tempCreated = st.tempCreated := rfl

theorem stAfterRun_nextTemp (env : Env) (st : AgentsState) (tid q : String) :
    (stAfterRun env st tid q).nextTemp = st.nextTemp := rfl

theorem stAfterFallback_tempCreated (env : Env) (st : AgentsState) (tid q : String) :
    (stAfterFallback env st tid q).tempCreated = st.tempCreated + 1 := rfl

theorem stAfterFallback_nextTemp (env : Env) (st : AgentsState) (tid q : String) :
    (stAfterFallback env st tid q).nextTemp = st.nextTemp + 1 := rfl

theorem getHist_stAfterRun_same (env : Env) (st : AgentsState) (tid q : String) :
    getHist (stAfterRun env st tid q) tid
      = runAppend env (getHist st tid ++ [⟨.user, q⟩]) := by
  rw [stAfterRun, getHist_runAgent_same, getHist_appendMsg_same]

theorem getHist_stAfterFallback_orig (env : Env) (st : AgentsState) (tid q : String)
    (htid : tid ≠ tempId st) :
    getHist (stAfterFallback env st tid q) tid
      = runAppend env (getHist st tid ++ [⟨.user, q⟩])
          ++ [⟨.assistant, recoveredTag ++ fallbackAnswer env q⟩] := by
  have htid2 : tid ≠ tempId (stAfterRun env st tid q) := htid
  simp only [stAfterFallback]
  rw [getHist_appendMsg_same, getHist_runAgent_ne _ _ _ _ htid2,
    getHist_appendMsg_ne _ _ _ _ _ htid2,
    getHist_newTempThread_ne _ _ htid2, getHist_stAfterRun_same]

theorem getHist_stAfterFallback_temp (env : Env) (st : AgentsState) (tid q : String)
    (htid : tid ≠ tempId st) :
    getHist (stAfterFallback env st tid q) (tempId st)
      = runAppend env [⟨.user, q⟩] := by
  show getHist (stAfterFallback env st tid q) (tempId (stAfterRun env st tid q)) = _
  have htemp : tempId (stAfterRun env st tid q) ≠ tid := Ne.symm htid
  simp only [stAfterFallback]
  rw [getHist_appendMsg_ne _ _ _ _ _ htemp, getHist_runAgent_same,
    getHist_appendMsg_same, getHist_newTempThread_self, List.nil_append]

/-- C1: when no service call fails and the primary response carries a refusal
marker, chat_on_thread creates exactly one new ephemeral thread (both the
creation counter and the thread-name counter advance by exactly one), that
thread starts with no prior history and receives the identical query text as
its first message, the ephemeral answer prefixed with the [Recovered Answer]
marker is appended to the original thread as an assistant message, and the
call returns the ephemeral answer rather than the original refusal. The
conclusion does not depend on whether the fallback answer is itself a
refusal, so a refusal-looking fallback answer is returned as-is with no
further ephemeral thread. -/
theorem chat_refusal_single_fallback (env : Env) (st : AgentsState) (tid q : String)
    (hf : noFailures env) (htid : tid ≠ tempId st)
    (hr : isRefusal (primaryResponse env st tid q) = true) :
    (chat_on_thread env st tid q).1 = fallbackAnswer env q ∧
    (chat_on_thread env st tid q).2.tempCreated = st.tempCreated + 1 ∧
    (chat_on_thread env st tid q).2.nextTemp = st.nextTemp + 1 ∧
    getHist (chat_on_thread env st tid q).2 (tempId st)
      = runAppend env [⟨.user, q⟩] ∧
    getHist (chat_on_thread env st tid q).2 tid
      = runAppend env (getHist st tid ++ [⟨.user, q⟩])
          ++ [⟨.assistant, recoveredTag ++ fallbackAnswer env q⟩] := by
  rw [chat_refusal_eval env st tid q hf hr]
  exact ⟨rfl, stAfterFallback_tempCreated .., stAfterFallback_nextTemp ..,
    getHist_stAfterFallback_temp env st tid q htid,
    getHist_stAfterFallback_orig env st tid q htid⟩

/-- Witness for C1: the primed refusal environment triggers exactly one
fallback and the ephemeral answer comes back. -/
theorem chat_refusal_single_fallback_witness :
    isRefusal (primaryResponse envRefuse st0 "t" "q") = true ∧
    (chat_on_thread envRefuse st0 "t" "q").1 = fallbackAnswer envRefuse "q" ∧
    (chat_on_thread envRefuse st0 "t" "q").2.tempCreated = 1 :=
  ⟨by decide,
    (chat_refusal_single_fallback envRefuse st0 "t" "q"
      (fun _ => rfl) (by decide) (by decide)).1,
    (chat_refusal_single_fallback envRefuse st0 "t" "q"
      (fun _ => rfl) (by decide) (by decide)).2.1⟩

/-- C2: when no service call fails and the primary response carries no
refusal marker, chat_on_thread returns that response unchanged and creates
zero ephemeral threads (both counters are unchanged). -/
theorem chat_no_refusal_unchanged (env : Env) (st : AgentsState) (tid q : String)
    (hf : noFailures env)
    (hnr : isRefusal (primaryResponse env st tid q) = false) :
    (chat_on_thread env st tid q).1 = primaryResponse env st tid q ∧
    (chat_on_thread env st tid q).2.tempCreated = st.tempCreated ∧
    (chat_on_thread env st tid q).2.nextTemp = st.nextTemp := by
  rw [chat_noRefusal_eval env st tid q hf hnr]
  exact ⟨rfl, stAfterRun_tempCreated .., stAfterRun_nextTemp ..⟩

/-- Witness for C2 at a plain, non-refusing environment. -/
theorem chat_no_refusal_unchanged_witness :
    isRefusal (primaryResponse envPlain st0 "t" "q") = false ∧
    (chat_on_thread envPlain st0 "t" "q").1 = primaryResponse envPlain st0 "t" "q" ∧
    (chat_on_thread envPlain st0 "t" "q").2.tempCreated = 0 :=
  ⟨by decide,
    (chat_no_refusal_unchanged envPlain st0 "t" "q" (fun _ => rfl) (by decide)).1,
    (chat_no_refusal_unchanged envPlain st0 "t" "q" (fun _ => rfl) (by decide)).2.1⟩

/-- C9: the refusal test is exactly substring membership of the two markers
in the response, the mandated not-available phrasing contains neither
marker, and therefore a primary response equal to that phrasing never
triggers the fallback retry. -/
theorem refusal_test_exact :
    (∀ s, isRefusal s = (strContains s marker1 || strContains s marker2)) ∧
    isRefusal notAvailableMsg = false ∧
    (∀ (env : Env) (st : AgentsState) (tid q : String), noFailures env →
      primaryResponse env st tid q = notAvailableMsg →
      (chat_on_thread env st tid q).1 = notAvailableMsg ∧
      (chat_on_thread env st tid q).2.tempCreated = st.tempCreated) := by
  have hna : isRefusal notAvailableMsg = false := by decide
  refine ⟨fun s => rfl, hna, fun env st tid q hf hpr => ?_⟩
  have hnr : isRefusal (primaryResponse env st tid q) = false := by
    rw [hpr]; exact hna
  rw [chat_noRefusal_eval env st tid q hf hnr]
  exact ⟨hpr, stAfterRun_tempCreated ..⟩

/-- Witness for C9 at an environment that always answers with the
not-available phrasing. -/
theorem refusal_test_exact_witness :
    primaryResponse envNotAvailable st0 "t" "q" = notAvailableMsg ∧
    (chat_on_thread envNotAvailable st0 "t" "q").2.tempCreated = 0 :=
  ⟨by decide,
    (refusal_test_exact.2.2 envNotAvailable st0 "t" "q" (fun _ => rfl) (by decide)).2⟩

/-- C5: per-call history growth on the original thread. A successful
non-fallback call appends exactly two messages, one User then one
Assistant; a fallback-triggering call appends exactly three (the User
query, the refusing Assistant response, and the tagged recovered Assistant
answer), so at most three, and no message of the ephemeral thread reaches
the original thread; the /ad/chat handler likewise appends exactly one User
and one Assistant entry. Growth over a sequence of sequential calls is the
sum of these per-call growths. -/
theorem history_growth_per_call (env : Env) (st : AgentsState) (tid q r : String)
    (hf : noFailures env) (htid : tid ≠ tempId st)
    (hresp : env.respond (getHist st tid ++ [⟨.user, q⟩]) = some r) :
    (isRefusal r = false →
      getHist (chat_on_thread env st tid q).2 tid
        = getHist st tid ++ [⟨.user, q⟩, ⟨.assistant, r⟩]) ∧
    (isRefusal r = true →
      getHist (chat_on_thread env st tid q).2 tid
        = getHist st tid ++ [⟨.user, q⟩, ⟨.assistant, r⟩,
            ⟨.assistant, recoveredTag ++ fallbackAnswer env q⟩]) ∧
    (∀ (proc : List Message → String → String) (hist : List Message) (msg : String),
      (ad_provisioning_chat proc hist msg).1
        = hist ++ [⟨.user, msg⟩, ⟨.assistant, (ad_provisioning_chat proc hist msg).2⟩]) := by
  have hra : runAppend env (getHist st tid ++ [⟨.user, q⟩])
      = getHist st tid ++ [⟨.user, q⟩] ++ [⟨.assistant, r⟩] := by
    simp only [runAppend, hresp]
  have hpr : primaryResponse env st tid q = r := by
    simp only [primaryResponse, hra, lastAssistant_append_assistant, Option.getD_some]
  refine ⟨fun hnr => ?_, fun hr => ?_, fun proc hist msg => ?_⟩
  · rw [chat_noRefusal_eval env st tid q hf (by rw [hpr]; exact hnr)]
    rw [getHist_stAfterRun_same, hra, List.append_assoc]
    rfl
  · rw [chat_refusal_eval env st tid q hf (by rw [hpr]; exact hr)]
    rw [getHist_stAfterFallback_orig env st tid q htid, hra]
    simp [List.append_assoc]
  · simp [ad_provisioning_chat]

/-- Witness for C5: the fallback-triggering case grows the original thread
by exactly three entries. -/
theorem history_growth_per_call_witness :
    envRefuse.respond (getHist st0 "t" ++ [⟨.user, "q"⟩]) = some primedRefusal ∧
    (isRefusal primedRefusal = true →
      getHist (chat_on_thread envRefuse st0 "t" "q").2 "t"
        = getHist st0 "t" ++ [⟨.user, "q"⟩, ⟨.assistant, primedRefusal⟩,
            ⟨.assistant, recoveredTag ++ fallbackAnswer envRefuse "q"⟩]) :=
  ⟨rfl, (history_growth_per_call envRefuse st0 "t" "q" primedRefusal
      (fun _ => rfl) (by decide) rfl).2.1⟩

/-- C4: a ServiceResponseError with the connection-reset detail raised by
one of the three primary service calls creates no ephemeral thread and the
call returns the fixed connection-lost string; that string is never of the
recovered-answer form the fallback path stores and is not a refusal, so the
fallback machinery is bypassed entirely. -/
theorem transport_error_short_circuit (env : Env) (st : AgentsState) (tid q m : String)
    (k : Nat) (hk : k < 3) (hbefore : ∀ j, j < k → env.fail j = none)
    (hfail : env.fail k = some (.serviceResponseError m))
    (hm : strContains m connLostDetail = true) :
    (chat_on_thread env st tid q).1 = connLostReply ∧
    (chat_on_thread env st tid q).2.tempCreated = st.tempCreated ∧
    (chat_on_thread env st tid q).2.nextTemp = st.nextTemp ∧
    (∀ s : String, connLostReply ≠ recoveredTag ++ s) ∧
    isRefusal connLostReply = false := by
  have hnotrec : ∀ s : String, connLostReply ≠ recoveredTag ++ s := by
    intro s h
    have h2 : connLostReply.data = recoveredTag.data ++ s.data := by
      rw [← String.data_append]; exact congrArg String.data h
    have h3 : connLostReply.data.head? = some (Char.ofNat 91) := by
      rw [h2, show recoveredTag.data = Char.ofNat 91 :: recoveredTag.data.tail from rfl]
      rfl
    exact absurd h3 (by decide)
  have hbody : ∃ st', chatBody env st tid q = (.error (Exc.serviceResponseError m), st')
      ∧ st'.tempCreated = st.tempCreated ∧ st'.nextTemp = st.nextTemp := by
    interval_cases k
    · exact ⟨st, by simp [chatBody, hfail], rfl, rfl⟩
    · exact ⟨appendMsg st tid .user q,
        by simp [chatBody, hbefore 0 (by omega), hfail], rfl, rfl⟩
    · exact ⟨stAfterRun env st tid q,
        by simp [chatBody, stAfterRun, hbefore 0 (by omega), hbefore 1 (by omega), hfail],
        rfl, rfl⟩
  obtain ⟨st', hb, hc, hn⟩ := hbody
  have hchat : chat_on_thread env st tid q = (handleExc (.serviceResponseError m), st') := by
    rw [chat_on_thread, hb]
  rw [hchat]
  refine ⟨?_, hc, hn, hnotrec, by decide⟩
  simp [handleExc, hm]

/-- Witness for C4: the connection-reset failure on the very first service
call yields the fixed connection-lost reply and no ephemeral thread. -/
theorem transport_error_short_circuit_witness :
    envConnLost.fail 0 = some (Exc.serviceResponseError connLostDetail) ∧
    (chat_on_thread envConnLost st0 "t" "q").1 = connLostReply ∧
    (chat_on_thread envConnLost st0 "t" "q").2.tempCreated = 0 :=
  ⟨rfl,
    (transport_error_short_circuit envConnLost st0 "t" "q" connLostDetail 0
      (by decide) (fun j hj => absurd hj (by omega)) rfl (by decide)).1,
    (transport_error_short_circuit envConnLost st0 "t" "q" connLostDetail 0
      (by decide) (fun j hj => absurd hj (by omega)) rfl (by decide)).2.1⟩

/-- C10: chat_on_thread is total over the modelled exceptions: when the body
succeeds the raw response comes back, and when the body raises the result is
the handler string for that exception — the connection-lost or service-error
message for a ServiceResponseError, and the unexpected-error message
carrying the original diagnostic text for anything else. -/
theorem chat_total_error_taxonomy (env : Env) (st : AgentsState) (tid q : String) :
    (∀ e, (chatBody env st tid q).1 = .error e →
      (chat_on_thread env st tid q).1 = handleExc e) ∧
    (∀ r, (chatBody env st tid q).1 = .ok r →
      (chat_on_thread env st tid q).1 = r) ∧
    (∀ m, handleExc (.serviceResponseError m)
      = if strContains m connLostDetail then connLostReply else serviceErrReply m) ∧
    (∀ m, handleExc (.otherError m) = unexpectedErrReply m) := by
  refine ⟨fun e he => ?_, fun r hr => ?_, fun m => rfl, fun m => rfl⟩
  · rcases hEq : chatBody env st tid q with ⟨x, s1⟩
    rw [hEq] at he
    simp only at he
    subst he
    rw [chat_on_thread, hEq]
  · rcases hEq : chatBody env st tid q with ⟨x, s1⟩
    rw [hEq] at hr
    simp only at hr
    subst hr
    rw [chat_on_thread, hEq]

/-- Witness for C10: a generic exception on the first service call is
converted to the unexpected-error string. -/
theorem chat_total_error_taxonomy_witness :
    (chatBody envBoom st0 "t" "q").1 = Except.error (Exc.otherError "boom") ∧
    (chat_on_thread envBoom st0 "t" "q").1 = handleExc (Exc.otherError "boom") ∧
    handleExc (Exc.otherError "boom") = unexpectedErrReply "boom" :=
  ⟨rfl,
    (chat_total_error_taxonomy envBoom st0 "t" "q").1 (Exc.otherError "boom") rfl,
    (chat_total_error_taxonomy envBoom st0 "t" "q").2.2.2 "boom"⟩

/-- Counterexample for C6: in get_ad_agent the global is assigned before
initialize() is awaited, so when initialize raises the getter call fails
yet the slot already holds the partially initialized instance, and the next
call returns that instance without retrying anything. -/
theorem ad_agent_caches_partial_counterexample :
    (get_ad_agent none (.ok ⟨1, false⟩) (.error "MCP connect failed")).1
      = Except.error "MCP connect failed" ∧
    (get_ad_agent none (.ok ⟨1, false⟩) (.error "MCP connect failed")).2
      = some ⟨1, false⟩ ∧
    get_ad_agent (some ⟨1, false⟩) (.ok ⟨2, false⟩) (.ok ())
      = (.ok ⟨1, false⟩, some ⟨1, false⟩) :=
  ⟨rfl, rfl, rfl⟩

/-- C6 amended: when the constructor itself raises, the slot stays empty and
the next call retries construction from scratch — this holds for
get_assistant, and for get_ad_agent when ADAgentMCP() raises; but when
get_ad_agent's post-construction initialize step raises, the partially
initialized instance is already stored and the next call returns it without
retrying initialization. -/
theorem construction_failure_not_cached :
    (∀ e : String, get_assistant none (.error e) = (.error e, none)) ∧
    (∀ a : Nat, get_assistant none (.ok a) = (.ok a, some a)) ∧
    (∀ (e : String) (i : Except String Unit),
      get_ad_agent none (.error e) i = (.error e, none)) ∧
    (∀ (a : ADAgent) (e : String),
      get_ad_agent none (.ok a) (.error e) = (.error e, some a)) ∧
    (∀ (a : ADAgent) (c : Except String ADAgent) (i : Except String Unit),
      get_ad_agent (some a) c i = (.ok a, some a)) :=
  ⟨fun _ => rfl, fun _ => rfl, fun _ _ => rfl, fun _ _ => rfl, fun _ _ _ => rfl⟩

/-- C7: once an agent's available_tools flag is non-empty, a further
registry getter call is a no-op beyond returning the instance: the discovery
block never runs (the result does not depend on it), so no tool is
re-registered and neither the MCP connection nor the LLM-service
registration is re-run. -/
theorem discovered_agent_getter_noop (a : MCPAgent) (ha : a.available_tools ≠ []) :
    (∀ (discover : MCPAgent → MCPAgent) (mk : MCPAgent),
      get_entra_agent discover mk (some a) = (some a, a)) ∧
    (∀ (discover : MCPAgent → MCPAgent) (mk : MCPAgent),
      get_saviynt_agent discover mk (some a) = (some a, a)) := by
  have hne : a.available_tools.isEmpty = false := by
    cases h : a.available_tools with
    | nil => exact absurd h ha
    | cons x xs => rfl
  exact ⟨fun discover mk => by simp [get_entra_agent, hne],
    fun discover mk => by simp [get_saviynt_agent, hne]⟩

/-- Witness for C7 at a concrete already-discovered agent. -/
theorem discovered_agent_getter_noop_witness :
    (MCPAgent.mk ["create_user"] 1 ["entra_provisioning"] 1).available_tools ≠ [] ∧
    get_entra_agent id (MCPAgent.mk [] 0 [] 0)
        (some (MCPAgent.mk ["create_user"] 1 ["entra_provisioning"] 1))
      = (some (MCPAgent.mk ["create_user"] 1 ["entra_provisioning"] 1),
          MCPAgent.mk ["create_user"] 1 ["entra_provisioning"] 1) :=
  ⟨by decide,
    (discovered_agent_getter_noop (MCPAgent.mk ["create_user"] 1 ["entra_provisioning"] 1)
      (by decide)).1 id (MCPAgent.mk [] 0 [] 0)⟩

theorem digitChar_inj :
    ∀ a b : Fin 16, Nat.digitChar a.val = Nat.digitChar b.val → a = b := by decide

theorem byteToHex_inj (a b : Nat) (ha : a < 256) (hb : b < 256)
    (h : byteToHex a = byteToHex b) : a = b := by
  simp only [byteToHex, List.cons.injEq, and_true] at h
  obtain ⟨h1, h2⟩ := h
  have d1 := digitChar_inj ⟨a / 16, by omega⟩ ⟨b / 16, by omega⟩ h1
  have d2 := digitChar_inj ⟨a % 16, by omega⟩ ⟨b % 16, by omega⟩ h2
  have e1 : a / 16 = b / 16 := congrArg Fin.val d1
  have e2 : a % 16 = b % 16 := congrArg Fin.val d2
  omega

theorem bytesHex_inj (xs : List Nat) : ∀ ys : List Nat, xs.length = ys.length →
    (∀ x ∈ xs, x < 256) → (∀ y ∈ ys, y < 256) →
    bytesHex xs = bytesHex ys → xs = ys := by
  induction xs with
  | nil =>
    intro ys hl _ _ _
    exact (List.length_eq_zero.mp hl.symm).symm
  | cons x xs ih =>
    intro ys hl hx hy h
    cases ys with
    | nil => simp at hl
    | cons y ys =>
      have hdata : byteToHex x ++ xs.flatMap byteToHex
          = byteToHex y ++ ys.flatMap byteToHex := by
        have h2 := congrArg String.data h
        simpa [bytesHex] using h2
      have hlen : (byteToHex x).length = (byteToHex y).length := by
        simp [byteToHex]
      obtain ⟨hh, ht⟩ := List.append_inj hdata hlen
      have hxy : x = y :=
        byteToHex_inj x y (hx x (by simp)) (hy y (by simp)) hh
      have hrest : xs = ys := by
        refine ih ys (by simpa using hl) (fun a ha => hx a (by simp [ha]))
          (fun a ha => hy a (by simp [ha])) ?_
        show bytesHex xs = bytesHex ys
        exact congrArg String.mk ht
      simp [hxy, hrest]

theorem strAppend_cancel_left (p s t : String) (h : p ++ s = p ++ t) : s = t := by
  have h2 : p.data ++ s.data = p.data ++ t.data := by
    rw [← String.data_append, ← String.data_append, h]
  exact String.ext (List.append_cancel_left h2)

/-- Counterexample for C8: the identifier is a pure function of the four
random bytes, and os.urandom may return the same draw on two distinct
calls, in which case the two calls return the same identifier. -/
theorem thread_id_reuse_counterexample : ¬ threadIdsDistinctClaim :=
  fun h => h (fun _ => [0, 0, 0, 0]) 0 1 (by omega) rfl

/-- C8 amended: thread identifiers are injective in the random draw — two
creation calls for the same agent kind return the same identifier exactly
when os.urandom returned the same four bytes; the generator performs no
uniqueness check, so distinctness holds precisely when the draws differ. -/
theorem thread_id_injective_in_draw (r1 r2 : List Nat)
    (h1 : r1.length = 4) (h2 : r2.length = 4)
    (hb1 : ∀ x ∈ r1, x < 256) (hb2 : ∀ x ∈ r2, x < 256) :
    (create_orchestrator_thread r1 = create_orchestrator_thread r2 ↔ r1 = r2) ∧
    (create_entra_agent_thread r1 = create_entra_agent_thread r2 ↔ r1 = r2) := by
  have hinj : bytesHex r1 = bytesHex r2 → r1 = r2 :=
    bytesHex_inj r1 r2 (h1.trans h2.symm) hb1 hb2
  refine ⟨⟨fun h => hinj (strAppend_cancel_left _ _ _ h), fun h => by rw [h]⟩,
    ⟨fun h => hinj (strAppend_cancel_left _ _ _ h), fun h => by rw [h]⟩⟩

/-- Witness for C8 amended at two concrete distinct draws. -/
theorem thread_id_injective_in_draw_witness :
    ([0, 0, 0, 7] : List Nat).length = 4 ∧
    (create_orchestrator_thread [0, 0, 0, 7] = create_orchestrator_thread [0, 0, 0, 9]
      ↔ ([0, 0, 0, 7] : List Nat) = [0, 0, 0, 9]) :=
  ⟨rfl,
    (thread_id_injective_in_draw [0, 0, 0, 7] [0, 0, 0, 9] rfl rfl
      (by decide) (by decide)).1⟩

theorem getElem?_set_cases (l : List PC) (i j : Nat) (a pc : PC)
    (h : (l.set i a)[j]? = some pc) :
    (j = i ∧ pc = a ∧ i < l.length) ∨ (j ≠ i ∧ l[j]? = some pc) := by
  by_cases hji : j = i
  · subst hji
    have hlt : j < l.length := by
      by_contra hn
      rw [List.getElem?_eq_none
        (by rw [List.length_set]; exact Nat.le_of_not_lt hn)] at h
      exact Option.noConfusion h
    rw [List.getElem?_set_self hlt] at h
    exact Or.inl ⟨rfl, (Option.some.inj h).symm, hlt⟩
  · rw [List.getElem?_set_ne (fun hh => hji hh.symm)] at h
    exact Or.inr ⟨hji, h⟩

theorem set_keeps_other (l : List PC) (i j : Nat) (a old b : PC)
    (hp : l[i]? = some old) (hne : old ≠ b) (hj : l[j]? = some b) :
    (l.set i a)[j]? = some b := by
  have hji : j ≠ i := by
    intro hh
    subst hh
    rw [hp] at hj
    exact hne (Option.some.inj hj)
  rw [List.getElem?_set_ne (fun hh => hji hh.symm)]
  exact hj

theorem regInv_init (n : Nat) : RegInv (initReg n) := by
  have hget : ∀ (i : Nat) (pc : PC), (initReg n).pcs[i]? = some pc → pc = PC.p0 := by
    intro i pc h
    rw [show (initReg n).pcs = List.replicate n PC.p0 from rfl,
      List.getElem?_replicate] at h
    split at h
    · exact (Option.some.inj h).symm
    · exact Option.noConfusion h
  refine ⟨fun i pc h hcs => ?_, fun i v h => ?_, fun v h => ?_, fun i h => ?_,
    Nat.zero_le 1, fun i v h => ?_, fun h => ?_, fun h => ?_⟩
  · rw [hget i pc h] at hcs
    exact Bool.noConfusion hcs
  · exact PC.noConfusion (hget i (PC.p3b v) h)
  · exact Option.noConfusion h
  · exact PC.noConfusion (hget i PC.p3 h)
  · exact PC.noConfusion (hget i (PC.done v) h)
  · obtain ⟨i, v, hi⟩ := h
    exact PC.noConfusion (hget i (PC.done v) hi)
  · simp [initReg] at h

theorem regInv_step (s s' : RegState) (inv : RegInv s) (hs : RegStep s s') :
    RegInv s' := by
  obtain ⟨I1, I2, I3, I4, I5, I6, I7, I8⟩ := inv
  cases hs with
  | check_some i v hp hg =>
    refine ⟨fun j pc h hcs => ?_, fun j w h => ?_, I3, fun j h => ?_, I5,
      fun j w h => ?_, fun h => ?_, fun hc => ?_⟩
    · rcases getElem?_set_cases _ _ _ _ _ h with ⟨rfl, rfl, _⟩ | ⟨_, hold⟩
      · exact Bool.noConfusion hcs
      · exact I1 j pc hold hcs
    · rcases getElem?_set_cases _ _ _ _ _ h with ⟨rfl, hpc, _⟩ | ⟨_, hold⟩
      · exact PC.noConfusion hpc
      · exact I2 j w hold
    · rcases getElem?_set_cases _ _ _ _ _ h with ⟨rfl, hpc, _⟩ | ⟨_, hold⟩
      · exact PC.noConfusion hpc
      · exact I4 j hold
    · rcases getElem?_set_cases _ _ _ _ _ h with ⟨rfl, hpc, _⟩ | ⟨_, hold⟩
      · exact PC.noConfusion hpc
      · exact I6 j w hold
    · obtain ⟨j, w, hj⟩ := h
      rcases getElem?_set_cases _ _ _ _ _ hj with ⟨rfl, hpc, _⟩ | ⟨_, hold⟩
      · exact PC.noConfusion hpc
      · exact I7 ⟨j, w, hold⟩
    · rcases I8 hc with hgs | ⟨j, hj⟩
      · exact Or.inl hgs
      · exact Or.inr ⟨j, set_keeps_other _ _ _ _ _ _ hp
          (fun hh => PC.noConfusion hh) hj⟩
  | check_none i hp hg =>
    refine ⟨fun j pc h hcs => ?_, fun j w h => ?_, I3, fun j h => ?_, I5,
      fun j w h => ?_, fun h => ?_, fun hc => ?_⟩
    · rcases getElem?_set_cases _ _ _ _ _ h with ⟨rfl, rfl, _⟩ | ⟨_, hold⟩
      · exact Bool.noConfusion hcs
      · exact I1 j pc hold hcs
    · rcases getElem?_set_cases _ _ _ _ _ h with ⟨rfl, hpc, _⟩ | ⟨_, hold⟩
      · exact PC.noConfusion hpc
      · exact I2 j w hold
    · rcases getElem?_set_cases _ _ _ _ _ h with ⟨rfl, hpc, _⟩ | ⟨_, hold⟩
      · exact PC.noConfusion hpc
      · exact I4 j hold
    · rcases getElem?_set_cases _ _ _ _ _ h with ⟨rfl, hpc, _⟩ | ⟨_, hold⟩
      · exact PC.noConfusion hpc
      · exact I6 j w hold
    · obtain ⟨j, w, hj⟩ := h
      rcases getElem?_set_cases _ _ _ _ _ hj with ⟨rfl, hpc, _⟩ | ⟨_, hold⟩
      · exact PC.noConfusion hpc
      · exact I7 ⟨j, w, hold⟩
    · rcases I8 hc with hgs | ⟨j, hj⟩
      · exact Or.inl hgs
      · exact Or.inr ⟨j, set_keeps_other _ _ _ _ _ _ hp
          (fun hh => PC.noConfusion hh) hj⟩
  | acquire i hp hl =>
    refine ⟨fun j pc h hcs => ?_, fun j w h => ?_, I3, fun j h => ?_, I5,
      fun j w h => ?_, fun h => ?_, fun hc => ?_⟩
    · rcases getElem?_set_cases _ _ _ _ _ h with ⟨rfl, rfl, _⟩ | ⟨_, hold⟩
      · rfl
      · have h1 := I1 j pc hold hcs
        rw [hl] at h1
        exact Option.noConfusion h1
    · rcases getElem?_set_cases _ _ _ _ _ h with ⟨rfl, hpc, _⟩ | ⟨_, hold⟩
      · exact PC.noConfusion hpc
      · exact I2 j w hold
    · rcases getElem?_set_cases _ _ _ _ _ h with ⟨rfl, hpc, _⟩ | ⟨_, hold⟩
      · exact PC.noConfusion hpc
      · exact I4 j hold
    · rcases getElem?_set_cases _ _ _ _ _ h with ⟨rfl, hpc, _⟩ | ⟨_, hold⟩
      · exact PC.noConfusion hpc
      · exact I6 j w hold
    · obtain ⟨j, w, hj⟩ := h
      rcases getElem?_set_cases _ _ _ _ _ hj with ⟨rfl, hpc, _⟩ | ⟨_, hold⟩
      · exact PC.noConfusion hpc
      · exact I7 ⟨j, w, hold⟩
    · rcases I8 hc with hgs | ⟨j, hj⟩
      · exact Or.inl hgs
      · exact Or.inr ⟨j, set_keeps_other _ _ _ _ _ _ hp
          (fun hh => PC.noConfusion hh) hj⟩
  | recheck_some i v hp hg =>
    have hlock : s.lock = some i := I1 i PC.p2 hp rfl
    refine ⟨fun j pc h hcs => ?_, fun j w h => ?_, I3, fun j h => ?_, I5,
      fun j w h => ?_, fun h => ?_, fun hc => ?_⟩
    · rcases getElem?_set_cases _ _ _ _ _ h with ⟨rfl, rfl, _⟩ | ⟨_, hold⟩
      · exact hlock
      · exact I1 j pc hold hcs
    · rcases getElem?_set_cases _ _ _ _ _ h with ⟨rfl, hpc, _⟩ | ⟨_, hold⟩
      · exact PC.noConfusion hpc
      · exact I2 j w hold
    · rcases getElem?_set_cases _ _ _ _ _ h with ⟨rfl, hpc, _⟩ | ⟨_, hold⟩
      · exact PC.noConfusion hpc
      · exact I4 j hold
    · rcases getElem?_set_cases _ _ _ _ _ h with ⟨rfl, hpc, _⟩ | ⟨_, hold⟩
      · exact PC.noConfusion hpc
      · exact I6 j w hold
    · obtain ⟨j, w, hj⟩ := h
      rcases getElem?_set_cases _ _ _ _ _ hj with ⟨rfl, hpc, _⟩ | ⟨_, hold⟩
      · exact PC.noConfusion hpc
      · exact I7 ⟨j, w, hold⟩
    · rcases I8 hc with hgs | ⟨j, hj⟩
      · exact Or.inl hgs
      · exact Or.inr ⟨j, set_keeps_other _ _ _ _ _ _ hp
          (fun hh => PC.noConfusion hh) hj⟩
  | recheck_none i hp hg =>
    have hlock : s.lock = some i := I1 i PC.p2 hp rfl
    have hcount0 : s.count = 0 := by
      rcases Nat.eq_zero_or_pos s.count with h0 | h0
      · exact h0
      · have hc1 : s.count = 1 := by omega
        rcases I8 hc1 with hgs | ⟨j, hj⟩
        · rw [hg] at hgs
          exact Option.noConfusion hgs
        · have hlj : s.lock = some j := I1 j (PC.p3b 1) hj rfl
          rw [hlock] at hlj
          have hij : i = j := Option.some.inj hlj
          subst hij
          rw [hp] at hj
          exact PC.noConfusion (Option.some.inj hj)
    refine ⟨fun j pc h hcs => ?_, fun j w h => ?_, I3, fun j h => ?_, I5,
      fun j w h => ?_, fun h => ?_, fun hc => ?_⟩
    · rcases getElem?_set_cases _ _ _ _ _ h with ⟨rfl, rfl, _⟩ | ⟨_, hold⟩
      · exact hlock
      · exact I1 j pc hold hcs
    · rcases getElem?_set_cases _ _ _ _ _ h with ⟨rfl, hpc, _⟩ | ⟨_, hold⟩
      · exact PC.noConfusion hpc
      · exact I2 j w hold
    · rcases getElem?_set_cases _ _ _ _ _ h with ⟨rfl, hpc, _⟩ | ⟨_, hold⟩
      · exact ⟨hg, hcount0⟩
      · exact I4 j hold
    · rcases getElem?_set_cases _ _ _ _ _ h with ⟨rfl, hpc, _⟩ | ⟨_, hold⟩
      · exact PC.noConfusion hpc
      · exact I6 j w hold
    · obtain ⟨j, w, hj⟩ := h
      rcases getElem?_set_cases _ _ _ _ _ hj with ⟨rfl, hpc, _⟩ | ⟨_, hold⟩
      · exact PC.noConfusion hpc
      · exact I7 ⟨j, w, hold⟩
    · exact absurd (show s.count = 1 from hc) (by omega)
  | construct i hp =>
    obtain ⟨hgn, hc0⟩ := I4 i hp
    have hlock : s.lock = some i := I1 i PC.p3 hp rfl
    have hlt : i < s.pcs.length := (List.getElem?_eq_some_iff.mp hp).1
    refine ⟨fun j pc h hcs => ?_, fun j w h => ?_, fun w hw => ?_, fun j h => ?_,
      by simp; omega, fun j w h => ?_, fun h => by simp; omega, fun hc => ?_⟩
    · rcases getElem?_set_cases _ _ _ _ _ h with ⟨rfl, rfl, _⟩ | ⟨_, hold⟩
      · exact hlock
      · exact I1 j pc hold hcs
    · rcases getElem?_set_cases _ _ _ _ _ h with ⟨rfl, hpc, _⟩ | ⟨hne, hold⟩
      · have hw : w = s.count + 1 := by
          injection hpc
        exact ⟨by omega, by simp; omega, hgn⟩
      · exact absurd (I2 j w hold).2.1 (by omega)
    · have hw2 : s.g = some w := hw
      rw [hgn] at hw2
      exact Option.noConfusion hw2
    · rcases getElem?_set_cases _ _ _ _ _ h with ⟨rfl, hpc, _⟩ | ⟨hne, hold⟩
      · exact PC.noConfusion hpc
      · have hlj : s.lock = some j := I1 j PC.p3 hold rfl
        rw [hlock] at hlj
        exact absurd (Option.some.inj hlj).symm hne
    · rcases getElem?_set_cases _ _ _ _ _ h with ⟨rfl, hpc, _⟩ | ⟨_, hold⟩
      · exact PC.noConfusion hpc
      · exact I6 j w hold
    · refine Or.inr ⟨i, ?_⟩
      show (s.pcs.set i (PC.p3b (s.count + 1)))[i]? = some (PC.p3b 1)
      rw [List.getElem?_set_self hlt, hc0]
  | store i v hp =>
    obtain ⟨hv1, hc1, hgn⟩ := I2 i v hp
    have hlock : s.lock = some i := I1 i (PC.p3b v) hp rfl
    refine ⟨fun j pc h hcs => ?_, fun j w h => ?_, fun w hw => ?_, fun j h => ?_,
      I5, fun j w h => ?_, fun h => hc1, fun hc => ?_⟩
    · rcases getElem?_set_cases _ _ _ _ _ h with ⟨rfl, rfl, _⟩ | ⟨_, hold⟩
      · exact hlock
      · exact I1 j pc hold hcs
    · rcases getElem?_set_cases _ _ _ _ _ h with ⟨rfl, hpc, _⟩ | ⟨hne, hold⟩
      · exact PC.noConfusion hpc
      · have hlj : s.lock = some j := I1 j (PC.p3b w) hold rfl
        rw [hlock] at hlj
        exact absurd (Option.some.inj hlj).symm hne
    · have hvw : v = w := Option.some.inj hw
      subst hvw
      exact ⟨hv1, hc1⟩
    · rcases getElem?_set_cases _ _ _ _ _ h with ⟨rfl, hpc, _⟩ | ⟨hne, hold⟩
      · exact PC.noConfusion hpc
      · have hlj : s.lock = some j := I1 j PC.p3 hold rfl
        rw [hlock] at hlj
        exact absurd (Option.some.inj hlj).symm hne
    · rcases getElem?_set_cases _ _ _ _ _ h with ⟨rfl, hpc, _⟩ | ⟨_, hold⟩
      · exact PC.noConfusion hpc
      · exact I6 j w hold
    · refine Or.inl ?_
      show some v = some 1
      rw [hv1]
  | release i hp =>
    have hlock : s.lock = some i := I1 i PC.p4 hp rfl
    refine ⟨fun j pc h hcs => ?_, fun j w h => ?_, I3, fun j h => ?_, I5,
      fun j w h => ?_, fun h => ?_, fun hc => ?_⟩
    · rcases getElem?_set_cases _ _ _ _ _ h with ⟨rfl, rfl, _⟩ | ⟨hne, hold⟩
      · exact Bool.noConfusion hcs
      · have hlj := I1 j pc hold hcs
        rw [hlock] at hlj
        exact absurd (Option.some.inj hlj).symm hne
    · rcases getElem?_set_cases _ _ _ _ _ h with ⟨rfl, hpc, _⟩ | ⟨_, hold⟩
      · exact PC.noConfusion hpc
      · exact I2 j w hold
    · rcases getElem?_set_cases _ _ _ _ _ h with ⟨rfl, hpc, _⟩ | ⟨_, hold⟩
      · exact PC.noConfusion hpc
      · exact I4 j hold
    · rcases getElem?_set_cases _ _ _ _ _ h with ⟨rfl, hpc, _⟩ | ⟨_, hold⟩
      · exact PC.noConfusion hpc
      · exact I6 j w hold
    · obtain ⟨j, w, hj⟩ := h
      rcases getElem?_set_cases _ _ _ _ _ hj with ⟨rfl, hpc, _⟩ | ⟨_, hold⟩
      · exact PC.noConfusion hpc
      · exact I7 ⟨j, w, hold⟩
    · rcases I8 hc with hgs | ⟨j, hj⟩
      · exact Or.inl hgs
      · exact Or.inr ⟨j, set_keeps_other _ _ _ _ _ _ hp
          (fun hh => PC.noConfusion hh) hj⟩
  | ret i v hp hg =>
    obtain ⟨hv1, hc1⟩ := I3 v hg
    refine ⟨fun j pc h hcs => ?_, fun j w h => ?_, I3, fun j h => ?_, I5,
      fun j w h => ?_, fun h => hc1, fun hc => ?_⟩
    · rcases getElem?_set_cases _ _ _ _ _ h with ⟨rfl, rfl, _⟩ | ⟨_, hold⟩
      · exact Bool.noConfusion hcs
      · exact I1 j pc hold hcs
    · rcases getElem?_set_cases _ _ _ _ _ h with ⟨rfl, hpc, _⟩ | ⟨_, hold⟩
      · exact PC.noConfusion hpc
      · exact I2 j w hold
    · rcases getElem?_set_cases _ _ _ _ _ h with ⟨rfl, hpc, _⟩ | ⟨_, hold⟩
      · exact PC.noConfusion hpc
      · exact I4 j hold
    · rcases getElem?_set_cases _ _ _ _ _ h with ⟨rfl, hpc, _⟩ | ⟨_, hold⟩
      · have hwv : w = v := by injection hpc
        rw [hwv, hv1]
      · exact I6 j w hold
    · refine Or.inl ?_
      show s.g = some 1
      rw [hg, hv1]

theorem regReach_inv (n : Nat) (s : RegState) (h : RegReach n s) : RegInv s := by
  induction h with
  | init => exact regInv_init n
  | step s1 s2 _ hstep ih => exact regInv_step s1 s2 ih hstep

theorem regStep_length (s s' : RegState) (h : RegStep s s') :
    s'.pcs.length = s.pcs.length := by
  cases h <;> simp

theorem regReach_length (n : Nat) (s : RegState) (h : RegReach n s) :
    s.pcs.length = n := by
  induction h with
  | init => simp [initReg]
  | step s1 s2 _ hstep ih => rw [regStep_length s1 s2 hstep, ih]

theorem isDone_eq : ∀ pc : PC, isDone pc = true → ∃ v, pc = PC.done v
  | .done v, _ => ⟨v, rfl⟩
  | .p0, h | .p1, h | .p2, h | .p3, h | .p3b _, h | .p4, h | .p5, h =>
    Bool.noConfusion h

theorem regReach_final : RegReach 1 regFinal := by
  have h0 : RegReach 1 (initReg 1) := RegReach.init
  have h1 := RegReach.step _ _ h0 (RegStep.check_none (initReg 1) 0 rfl rfl)
  have h2 := RegReach.step _ _ h1 (RegStep.acquire _ 0 rfl rfl)
  have h3 := RegReach.step _ _ h2 (RegStep.recheck_none _ 0 rfl rfl)
  have h4 := RegReach.step _ _ h3 (RegStep.construct _ 0 rfl)
  have h5 := RegReach.step _ _ h4 (RegStep.store _ 0 1 rfl)
  have h6 := RegReach.step _ _ h5 (RegStep.release _ 0 rfl)
  have h7 := RegReach.step _ _ h6 (RegStep.ret _ 0 1 rfl rfl)
  exact h7

/-- C3: under the double-checked-locking registry all reachable states have
at most one constructor run, and once all N workers (N ≥ 1) racing the first
access have returned, exactly one AgentClient was constructed and every
worker returned that same single instance. -/
theorem registry_singleton (n : Nat) (s : RegState) (hn : 0 < n)
    (hr : RegReach n s) :
    s.count ≤ 1 ∧
    (allDone s → s.count = 1 ∧ ∀ pc ∈ s.pcs, pc = PC.done 1) := by
  obtain ⟨I1, I2, I3, I4, I5, I6, I7, I8⟩ := regReach_inv n s hr
  refine ⟨I5, fun hd => ?_⟩
  have hlen : s.pcs.length = n := regReach_length n s hr
  have h0 : 0 < s.pcs.length := by omega
  have hpc0 : s.pcs[0]? = some (s.pcs.get ⟨0, h0⟩) := List.getElem?_eq_getElem h0
  have hmem : s.pcs.get ⟨0, h0⟩ ∈ s.pcs := List.mem_iff_getElem?.mpr ⟨0, hpc0⟩
  obtain ⟨v0, hv0⟩ := isDone_eq _ (hd _ hmem)
  rw [hv0] at hpc0
  have hcount : s.count = 1 := I7 ⟨0, v0, hpc0⟩
  refine ⟨hcount, fun pc hpc => ?_⟩
  obtain ⟨j, hj⟩ := List.mem_iff_getElem?.mp hpc
  obtain ⟨w, hw⟩ := isDone_eq pc (hd pc hpc)
  rw [hw] at hj ⊢
  rw [I6 j w hj]

/-- Witness for C3: the complete one-worker execution reaches the all-done
state, where exactly one construction happened and instance 1 was returned. -/
theorem registry_singleton_witness :
    regFinal.count ≤ 1 ∧
    (allDone regFinal → regFinal.count = 1 ∧ ∀ pc ∈ regFinal.pcs, pc = PC.done 1) ∧
    allDone regFinal :=
  ⟨(registry_singleton 1 regFinal (by omega) regReach_final).1,
    (registry_singleton 1 regFinal (by omega) regReach_final).2,
    fun pc hpc => by rw [List.mem_singleton.mp hpc]; rfl⟩

end Genie
